import Mathlib

/-!
Verification of the PolicyEngine post-scottish-budget-dashboard repository.

JavaScript numbers are embedded as rationals (ℚ), strings as Lean strings
or lists of characters, and arrays as lists.  Each definition mirrors one
function or constant of the repository; the multi-source geographic
allocation engine described by the repository README is modelled from the
specification, since only its documentation and its display consumers are
part of this repository.
-/

namespace Dashboard

/-! ## reformConfig.js : SCP baby boost (src/src/utils/reformConfig.js) -/

/-- SCP_STANDARD_RATE from reformConfig.js: £27.15 per week. -/
def SCP_STANDARD_RATE : ℚ := 27.15

/-- SCP_BABY_RATE from reformConfig.js: £40.00 per week for babies under 1. -/
def SCP_BABY_RATE : ℚ := 40.0

/-- SCP_BABY_BOOST from reformConfig.js: the weekly boost amount. -/
def SCP_BABY_BOOST : ℚ := SCP_BABY_RATE - SCP_STANDARD_RATE

/-- WEEKS_IN_YEAR from reformConfig.js. -/
def WEEKS_IN_YEAR : ℚ := 52

/-- SCP_BABY_BOOST_ANNUAL from reformConfig.js: weekly boost times 52. -/
def SCP_BABY_BOOST_ANNUAL : ℚ := SCP_BABY_BOOST * WEEKS_IN_YEAR

/-- SCP_INCOME_THRESHOLD from reformConfig.js: £30,000. -/
def SCP_INCOME_THRESHOLD : ℚ := 30000

/-- The fields of the `inputs` object consumed by calculateScpBabyBoost.
`partner_income` is optional (absent is the JavaScript undefined, which the
code folds to 0 through the expression partner_income || 0). -/
structure HouseholdInputs where
  employment_income : ℚ
  partner_income : Option ℚ
  children_ages : List ℚ
deriving DecidableEq

/-- calculateScpBabyBoost from reformConfig.js, line for line:
count babies (ages strictly below 1); if none, return 0; compute total
income with a missing partner income treated as 0; return the annual boost
times the number of babies when the household has children and total income
is below the threshold, else 0. -/
def calculateScpBabyBoost (i : HouseholdInputs) : ℚ :=
  let babiesCount : ℕ := (i.children_ages.filter (fun age => age < 1)).length
  if babiesCount = 0 then 0
  else
    let totalIncome := i.employment_income + (i.partner_income.getD 0)
    let hasChildren := 0 < i.children_ages.length
    if hasChildren ∧ totalIncome < SCP_INCOME_THRESHOLD then
      SCP_BABY_BOOST_ANNUAL * (babiesCount : ℚ)
    else 0

/-- The number of entries of children_ages strictly below 1. -/
def babies (i : HouseholdInputs) : ℕ :=
  (i.children_ages.filter (fun age => age < 1)).length

/-- Total income as the code computes it: employment income plus partner
income, the latter 0 when absent. -/
def totalIncome (i : HouseholdInputs) : ℚ :=
  i.employment_income + (i.partner_income.getD 0)

/-! ## parseCSVLine (LocalAreaSection component, src/unnamed/part_002)

A JavaScript string is embedded as its list of characters. -/

/-- The character loop of parseCSVLine: on a double quote toggle inQuotes
and drop the quote; on a comma outside quotes push the current field and
start a new one; otherwise append the character to the current field.  At
the end of the line the current field is pushed. -/
def parseCSVLineGo : List Char → Bool → List Char → List (List Char)
  | [], _, current => [current]
  | c :: rest, inQuotes, current =>
    if c = '"' then parseCSVLineGo rest (!inQuotes) current
    else if c = ',' ∧ inQuotes = false then
      current :: parseCSVLineGo rest inQuotes []
    else parseCSVLineGo rest inQuotes (current ++ [c])

/-- parseCSVLine from the LocalAreaSection component: result starts empty,
current starts empty, inQuotes starts false. -/
def parseCSVLine (line : List Char) : List (List Char) :=
  parseCSVLineGo line false []

/-- The splitting the claim describes, written independently: walk the line
keeping the number q of double quotes seen so far, split at exactly those
commas preceded by an even number of double quotes, and remove every double
quote from each returned field. -/
def evenSplitGo : List Char → Nat → List Char → List (List Char)
  | [], _, cur => [cur.filter (fun d => d ≠ '"')]
  | c :: rest, q, cur =>
    if c = ',' ∧ q % 2 = 0 then
      cur.filter (fun d => d ≠ '"') :: evenSplitGo rest q []
    else evenSplitGo rest (if c = '"' then q + 1 else q) (cur ++ [c])

/-- evenSplitGo started with zero quotes seen and an empty current field. -/
def evenQuoteSplit (line : List Char) : List (List Char) :=
  evenSplitGo line 0 []

/-! ## chartData (LocalAreaSection component, src/unnamed/part_002) -/

/-- One row of the transformed constituency data consumed by chartData:
only the fields the chart uses are kept. -/
structure ConstituencyRow where
  name : String
  avgGain : ℚ
deriving DecidableEq

/-- The ordering imposed by the chartData sort comparator
(a, b) => b.avgGain - a.avgGain: average gain from highest to lowest. -/
def gainDesc (a b : ConstituencyRow) : Prop := b.avgGain ≤ a.avgGain

instance : DecidableRel gainDesc :=
  fun a b => inferInstanceAs (Decidable (b.avgGain ≤ a.avgGain))

instance : IsTotal ConstituencyRow gainDesc :=
  ⟨fun a b => le_total b.avgGain a.avgGain⟩

instance : IsTrans ConstituencyRow gainDesc :=
  ⟨fun _ _ _ h1 h2 => le_trans h2 h1⟩

/-- chartData from the LocalAreaSection component: sort the constituency
rows by average gain descending; the Top 10 toggle takes slice(0, 10), the
Lowest 10 toggle takes slice(-10) reversed. -/
def chartData (data : List ConstituencyRow) (showTop : Bool) :
    List ConstituencyRow :=
  let sorted := data.insertionSort gainDesc
  if showTop then sorted.take 10
  else (sorted.drop (sorted.length - 10)).reverse

/-! ## The Multi-Source Geographic Allocation Engine

The engine itself (WeightTable Builder, CouncilShareResolver,
AllocationEngine, ScenarioProjector) belongs to the scotland-mansion-tax
pipeline; this repository carries only its README description and the map
component that displays its output.  The definitions below are therefore
modelled from the specification. -/

/-- Modelled from the spec: the constituency reference record consumed by
the engine (constituency_code, constituency_name, council_code,
population); the allocation-engine source is not in this repository. -/
structure Constituency where
  code : String
  name : String
  council_code : String
  population : ℚ
deriving DecidableEq

/-- Modelled from the spec: the full engine input (constituency reference
list, concentration-proxy table, council transaction table, national
average concentration ratio, national total stock, and the externally
published headline national transaction total); the allocation-engine
source is not in this repository. -/
structure EngineInput where
  constituencies : List Constituency
  proxy : List (String × ℚ)
  txCounts : List (String × ℚ)
  natAvg : ℚ
  totalStock : ℚ
  headlineTotal : ℚ
deriving DecidableEq

/-- Keyed lookup in an association table, a missing key giving 0. -/
def lookupD (t : List (String × ℚ)) (k : String) : ℚ :=
  match t.find? (fun p => p.1 = k) with
  | some p => p.2
  | none => 0

/-- Keyed lookup returning none for a missing key. -/
def lookupOpt (t : List (String × ℚ)) (k : String) : Option ℚ :=
  (t.find? (fun p => p.1 = k)).map (fun p => p.2)

/-- Modelled from the spec: the WeightTable Builder wealth factor,
local_ratio divided by the national average ratio, a missing local ratio
treated as 0; the allocation-engine source is not in this repository. -/
def wealthFactor (inp : EngineInput) (k : Constituency) : ℚ :=
  lookupD inp.proxy k.code / inp.natAvg

/-- Modelled from the spec: raw weight = population times wealth factor;
the allocation-engine source is not in this repository. -/
def rawWeight (inp : EngineInput) (k : Constituency) : ℚ :=
  k.population * wealthFactor inp k

/-- The constituencies belonging to one council. -/
def councilConstituencies (inp : EngineInput) (cc : String) :
    List Constituency :=
  inp.constituencies.filter (fun k => k.council_code = cc)

/-- Sum of raw weights within one council. -/
def councilRawSum (inp : EngineInput) (cc : String) : ℚ :=
  ((councilConstituencies inp cc).map (rawWeight inp)).sum

/-- Sum of populations within one council. -/
def councilPopSum (inp : EngineInput) (cc : String) : ℚ :=
  ((councilConstituencies inp cc).map (fun k => k.population)).sum

/-- Modelled from the spec: the WeightTable Builder intra-council weight,
raw weight divided by the council raw-weight sum, with the documented
population-only fallback when every constituency of the council has raw
weight 0; the allocation-engine source is not in this repository. -/
def intraWeight (inp : EngineInput) (k : Constituency) : ℚ :=
  if ∀ j ∈ councilConstituencies inp k.council_code, rawWeight inp j = 0 then
    k.population / councilPopSum inp k.council_code
  else rawWeight inp k / councilRawSum inp k.council_code

/-- The internal total of the council transaction table. -/
def txTotal (inp : EngineInput) : ℚ :=
  (inp.txCounts.map (fun p => p.2)).sum

/-- Modelled from the spec: the CouncilShareResolver share, council count
divided by the internal dataset total, never the headline total; the
allocation-engine source is not in this repository. -/
def councilShare (inp : EngineInput) (cc : String) : ℚ :=
  lookupD inp.txCounts cc / txTotal inp

/-- Modelled from the spec: the AllocationEngine constituency share,
council share times intra-council weight; the allocation-engine source is
not in this repository. -/
def constituencyShare (inp : EngineInput) (k : Constituency) : ℚ :=
  councilShare inp k.council_code * intraWeight inp k

/-- Modelled from the spec: allocated stock for a constituency. -/
def allocatedStock (inp : EngineInput) (k : Constituency) : ℚ :=
  inp.totalStock * constituencyShare inp k

/-- The sum of constituency shares over the whole input. -/
def shareSum (inp : EngineInput) : ℚ :=
  (inp.constituencies.map (constituencyShare inp)).sum

/-- Modelled from the spec: the structured allocation report, a share per
allocated constituency together with the code of every excluded one; the
allocation-engine source is not in this repository. -/
structure AllocationReport where
  shares : List (String × ℚ)
  excluded : List String
deriving DecidableEq

/-- Modelled from the spec: the allocation run with the explicit
exclude-and-report policy for any constituency whose council_code has no
entry in the council transaction table; the allocation-engine source is
not in this repository. -/
def allocate (inp : EngineInput) : AllocationReport :=
  { shares := (inp.constituencies.filter
        (fun k => (lookupOpt inp.txCounts k.council_code).isSome)).map
        (fun k => (k.code, constituencyShare inp k)),
    excluded := (inp.constituencies.filter
        (fun k => (lookupOpt inp.txCounts k.council_code).isNone)).map
        (fun k => k.code) }

/-- Modelled from the spec: one value band of the national aggregate, with
its share of the national stock and its flat annual rate; the
allocation-engine source is not in this repository. -/
structure Band where
  name : String
  stockShare : ℚ
  rate : ℚ
deriving DecidableEq

/-- Modelled from the spec: revenue of one band over a stock figure. -/
def bandRevenue (stock : ℚ) (b : Band) : ℚ :=
  stock * b.stockShare * b.rate

/-- Modelled from the spec: the ScenarioProjector revenue over a stock
figure, summing stock times band share times band rate over the bands; the
allocation-engine source is not in this repository. -/
def scenarioRevenue (stock : ℚ) (bands : List Band) : ℚ :=
  (bands.map (bandRevenue stock)).sum

/-- Modelled from the spec: national average rate, national revenue
divided by national stock. -/
def nationalAvgRate (stock : ℚ) (bands : List Band) : ℚ :=
  scenarioRevenue stock bands / stock

/-- Modelled from the spec: a rate scenario replaces the per-band rates. -/
def applyRates (bands : List Band) (rates : List ℚ) : List Band :=
  List.zipWith (fun b r => { b with rate := r }) bands rates

/-- Modelled from the spec: a constituency's projected revenue under a
scenario, over the allocation produced by the engine. -/
def constituencyRevenue (inp : EngineInput) (bands : List Band)
    (rates : List ℚ) (k : Constituency) : ℚ :=
  scenarioRevenue (allocatedStock inp k) (applyRates bands rates)

/-- The two bands of the UK-benchmark scenario the claims quote: Band I
with an 89 percent stock share at £1,500 and Band J with an 11 percent
stock share at £2,500. -/
def ukBands : List Band :=
  [⟨"Band I", 89 / 100, 1500⟩, ⟨"Band J", 11 / 100, 2500⟩]

/-- A small concrete engine input: two councils, three constituencies, one
proxy entry; the council of k3 carries no proxy signal at all. -/
def sampleInput : EngineInput :=
  { constituencies :=
      [⟨"k1", "K1", "c1", 60⟩, ⟨"k2", "K2", "c1", 40⟩, ⟨"k3", "K3", "c2", 10⟩],
    proxy := [("k1", 1 / 2)],
    txCounts := [("c1", 3), ("c2", 1)],
    natAvg := 1 / 4,
    totalStock := 100,
    headlineTotal := 391 }

/-- A concrete input whose only constituency has a huge population but no
concentration-proxy entry. -/
def missingProxyInput : EngineInput :=
  { constituencies := [⟨"k9", "K9", "c9", 1000000⟩],
    proxy := [],
    txCounts := [("c9", 1)],
    natAvg := 1 / 4,
    totalStock := 100,
    headlineTotal := 0 }

/-- A concrete input with one council of two constituencies, populations 60
and 40, and an entirely absent proxy signal. -/
def fallbackInput : EngineInput :=
  { constituencies := [⟨"a", "A", "c", 60⟩, ⟨"b", "B", "c", 40⟩],
    proxy := [],
    txCounts := [("c", 1)],
    natAvg := 1,
    totalStock := 100,
    headlineTotal := 0 }

/-- A concrete council transaction table whose counts sum to 429 while the
headline national figure states 391. -/
def mismatchInput : EngineInput :=
  { constituencies := [],
    proxy := [],
    txCounts := [("Edinburgh", 200), ("Glasgow", 229)],
    natAvg := 1,
    totalStock := 11481,
    headlineTotal := 391 }

/-- A concrete input in which constituency m1 references a council with no
transaction-share entry. -/
def missingCouncilInput : EngineInput :=
  { constituencies := [⟨"m1", "M1", "nowhere", 10⟩, ⟨"m2", "M2", "c1", 20⟩],
    proxy := [("m2", 1 / 2)],
    txCounts := [("c1", 5)],
    natAvg := 1 / 2,
    totalStock := 100,
    headlineTotal := 0 }

end Dashboard

namespace Dashboard

/-! ## Theorems -/

/-- C8: calculateScpBabyBoost returns (40.0 − 27.15) × 52 pounds times the
number of children_ages entries strictly below 1 exactly when that count is
at least 1 and employment_income plus partner_income (0 when absent) is
strictly below 30,000, and returns exactly 0 otherwise; in particular the
result is never negative. -/
theorem calculateScpBabyBoost_eq (i : HouseholdInputs) :
    (calculateScpBabyBoost i =
      if 1 ≤ babies i ∧ totalIncome i < 30000 then
        ((40.0 : ℚ) - 27.15) * 52 * (babies i : ℚ)
      else 0)
    ∧ 0 ≤ calculateScpBabyBoost i := by
  have hfil : (i.children_ages.filter (fun age => age < 1)).length ≤
      i.children_ages.length := List.length_filter_le _ _
  have hval : calculateScpBabyBoost i =
      if 1 ≤ babies i ∧ totalIncome i < 30000 then
        ((40.0 : ℚ) - 27.15) * 52 * (babies i : ℚ)
      else 0 := by
    unfold calculateScpBabyBoost babies totalIncome SCP_INCOME_THRESHOLD
      SCP_BABY_BOOST_ANNUAL SCP_BABY_BOOST SCP_BABY_RATE SCP_STANDARD_RATE
      WEEKS_IN_YEAR
    dsimp only
    split_ifs with h0 h1 h2 h3 h4
    · exact absurd h1.1 (by omega)
    · rfl
    · rfl
    · exact absurd ⟨Nat.one_le_iff_ne_zero.mpr h0, h2.2⟩ h3
    · exact absurd ⟨by omega, h4.2⟩ h2
    · rfl
  refine ⟨hval, ?_⟩
  rw [hval]
  split
  · have hb : (0 : ℚ) ≤ (40.0 - 27.15) * 52 := by norm_num
    exact mul_nonneg hb (Nat.cast_nonneg _)
  · exact le_refl 0

lemma parseCSVLineGo_eq_evenSplitGo :
    ∀ (l : List Char) (q : Nat) (cur : List Char),
      parseCSVLineGo l (decide (q % 2 = 1)) (cur.filter (fun d => d ≠ '"')) =
        evenSplitGo l q cur := by
  intro l
  induction l with
  | nil => intro q cur; rfl
  | cons c rest ih =>
    intro q cur
    by_cases hq : c = '"'
    · subst hq
      rw [parseCSVLineGo, if_pos rfl, evenSplitGo,
        if_neg (by rintro ⟨h, -⟩; exact absurd h (by decide)), if_pos rfl]
      have hfil : (cur ++ ['"']).filter (fun d => d ≠ '"') =
          cur.filter (fun d => d ≠ '"') := by
        simp
      have hpar : (!decide (q % 2 = 1)) = decide ((q + 1) % 2 = 1) := by
        rcases Nat.mod_two_eq_zero_or_one q with h | h
        · have h2 : (q + 1) % 2 = 1 := by omega
          simp [h, h2]
        · have h2 : (q + 1) % 2 = 0 := by omega
          simp [h, h2]
      rw [hpar, ← hfil, ih]
    · by_cases hc : c = ','
      · subst hc
        rcases Nat.mod_two_eq_zero_or_one q with h | h
        · rw [parseCSVLineGo, if_neg hq, evenSplitGo, if_pos ⟨rfl, by simp [h]⟩,
            if_pos ⟨rfl, h⟩]
          have : (decide (q % 2 = 1)) = false := by simp [h]
          rw [← ih q []]
          simp [this]
        · rw [parseCSVLineGo, if_neg hq, evenSplitGo,
            if_neg (by rintro ⟨-, h0⟩; simp [h] at h0),
            if_neg (by rintro ⟨-, h0⟩; omega), if_neg hq]
          have hfil : (cur ++ [',']).filter (fun d => d ≠ '"') =
              cur.filter (fun d => d ≠ '"') ++ [','] := by
            simp
          rw [← ih q (cur ++ [','])]
          rw [hfil]
      · rw [parseCSVLineGo, if_neg hq, if_neg (by rintro ⟨h, -⟩; exact hc h),
          evenSplitGo, if_neg (by rintro ⟨h, -⟩; exact hc h), if_neg hq]
        have hfil : (cur ++ [c]).filter (fun d => d ≠ '"') =
            cur.filter (fun d => d ≠ '"') ++ [c] := by
          simp [hq]
        rw [← ih q (cur ++ [c]), hfil]

lemma parseCSVLineGo_ne_nil :
    ∀ (l : List Char) (b : Bool) (cur : List Char),
      parseCSVLineGo l b cur ≠ [] := by
  intro l
  induction l with
  | nil => intro b cur; simp [parseCSVLineGo]
  | cons c rest ih =>
    intro b cur
    rw [parseCSVLineGo]
    split
    · exact ih (!b) cur
    · split
      · simp
      · exact ih b (cur ++ [c])

lemma parseCSVLineGo_length_of_no_quote :
    ∀ (l : List Char) (cur : List Char), '"' ∉ l →
      (parseCSVLineGo l false cur).length = l.count ',' + 1 := by
  intro l
  induction l with
  | nil => intro cur _; rfl
  | cons c rest ih =>
    intro cur h
    have hq : ¬ c = '"' := fun hcq => h (by rw [← hcq]; exact List.mem_cons_self c rest)
    have hrest : '"' ∉ rest := fun hm => h (List.mem_cons_of_mem c hm)
    rw [parseCSVLineGo, if_neg hq]
    by_cases hc : c = ','
    · subst hc
      rw [if_pos ⟨rfl, rfl⟩]
      simp [List.count_cons, ih [] hrest]
    · rw [if_neg (by rintro ⟨h0, -⟩; exact hc h0), ih (cur ++ [c]) hrest]
      simp [List.count_cons, hc]

lemma sum_map_filter_partition {α : Type} (p : α → Prop) [DecidablePred p]
    (f : α → ℚ) (l : List α) :
    ((l.filter (fun a => p a)).map f).sum
      + ((l.filter (fun a => ¬ p a)).map f).sum = (l.map f).sum := by
  induction l with
  | nil => simp
  | cons a l ih =>
    by_cases h : p a
    · simp [List.filter_cons, h, decide_not] at ih ⊢
      linarith [ih]
    · simp [List.filter_cons, h, decide_not] at ih ⊢
      linarith [ih]

lemma sum_map_eq_sum_over_keys {α : Type} (key : α → String) (f : α → ℚ) :
    ∀ (K : List String), K.Nodup → ∀ (l : List α), (∀ a ∈ l, key a ∈ K) →
      (l.map f).sum =
        (K.map (fun c => ((l.filter (fun a => key a = c)).map f).sum)).sum := by
  intro K
  induction K with
  | nil =>
    intro _ l hl
    have hnil : l = [] := List.eq_nil_iff_forall_not_mem.mpr
      (fun a ha => absurd (hl a ha) (List.not_mem_nil _))
    subst hnil
    simp
  | cons c K ih =>
    intro hK l hl
    have hK2 : K.Nodup := (List.nodup_cons.mp hK).2
    have hcK : c ∉ K := (List.nodup_cons.mp hK).1
    have hpart := sum_map_filter_partition (fun a => key a = c) f l
    have hrest : ∀ a ∈ l.filter (fun a => ¬ key a = c), key a ∈ K := by
      intro a ha
      have hm := List.mem_filter.mp ha
      have hne : ¬ key a = c := by simpa using hm.2
      rcases List.mem_cons.mp (hl a hm.1) with he | hmem
      · exact absurd he hne
      · exact hmem
    have hihl := ih hK2 (l.filter (fun a => ¬ key a = c)) hrest
    have hff : ∀ c' ∈ K,
        (l.filter (fun a => ¬ key a = c)).filter (fun a => key a = c')
          = l.filter (fun a => key a = c') := by
      intro c' hc'
      rw [List.filter_filter]
      apply List.filter_congr
      intro a _
      by_cases h : key a = c'
      · have hcc2 : ¬ c' = c := fun he => hcK (he ▸ hc')
        simp [h, hcc2]
      · simp [h]
    rw [← hpart, hihl, List.map_cons, List.sum_cons]
    congr 1
    apply congrArg List.sum
    apply List.map_congr_left
    intro c' hc'
    rw [hff c' hc']

lemma lookupD_head (p : String × ℚ) (t : List (String × ℚ)) :
    lookupD (p :: t) p.1 = p.2 := by
  unfold lookupD
  rw [List.find?_cons_of_pos _ (by simp)]

lemma lookupD_tail (p : String × ℚ) (t : List (String × ℚ)) (k : String)
    (hk : ¬ k = p.1) :
    lookupD (p :: t) k = lookupD t k := by
  unfold lookupD
  rw [List.find?_cons_of_neg _ (by simp; exact fun h => hk h.symm)]

lemma sum_lookupD_keys :
    ∀ (t : List (String × ℚ)), (t.map Prod.fst).Nodup →
      ((t.map Prod.fst).map (fun k => lookupD t k)).sum
        = (t.map (fun p => p.2)).sum := by
  intro t
  induction t with
  | nil => intro _; rfl
  | cons p t ih =>
    intro h
    rw [List.map_cons] at h
    have hh := List.nodup_cons.mp h
    have htail : ∀ k ∈ t.map Prod.fst, lookupD (p :: t) k = lookupD t k := by
      intro k hk
      exact lookupD_tail p t k (fun he => hh.1 (he ▸ hk))
    simp only [List.map_cons, List.sum_cons]
    rw [lookupD_head, List.map_congr_left htail, ih hh.2]

lemma lookupD_nonneg (t : List (String × ℚ)) (ht : ∀ p ∈ t, 0 ≤ p.2)
    (k : String) : 0 ≤ lookupD t k := by
  cases hf : t.find? (fun p => p.1 = k) with
  | none => simp [lookupD, hf]
  | some p =>
    have hp : p ∈ t := List.mem_of_find?_eq_some hf
    simpa [lookupD, hf] using ht p hp

lemma rawWeight_nonneg (inp : EngineInput)
    (hproxy : ∀ p ∈ inp.proxy, 0 ≤ p.2) (hnat : 0 ≤ inp.natAvg)
    (k : Constituency) (hk : 0 ≤ k.population) :
    0 ≤ rawWeight inp k :=
  mul_nonneg hk (div_nonneg (lookupD_nonneg _ hproxy _) hnat)

lemma councilConstituencies_code (inp : EngineInput) (cc : String) :
    ∀ k ∈ councilConstituencies inp cc, k.council_code = cc := by
  intro k hk
  have hm := List.mem_filter.mp hk
  simpa using hm.2

lemma intraWeight_sum_eq_one (inp : EngineInput) (cc : String)
    (hne : councilConstituencies inp cc ≠ [])
    (hpop : ∀ k ∈ councilConstituencies inp cc, 0 < k.population)
    (hraw : ∀ k ∈ councilConstituencies inp cc, 0 ≤ rawWeight inp k) :
    ((councilConstituencies inp cc).map (intraWeight inp)).sum = 1 := by
  have hrw : ∀ k ∈ councilConstituencies inp cc, intraWeight inp k =
      if ∀ j ∈ councilConstituencies inp cc, rawWeight inp j = 0 then
        k.population / councilPopSum inp cc
      else rawWeight inp k / councilRawSum inp cc := by
    intro k hk
    rw [intraWeight, councilConstituencies_code inp cc k hk]
  rw [List.map_congr_left hrw]
  by_cases hz : ∀ j ∈ councilConstituencies inp cc, rawWeight inp j = 0
  · simp only [if_pos hz]
    have hps : 0 < councilPopSum inp cc := by
      rcases List.exists_mem_of_ne_nil _ hne with ⟨k0, hk0⟩
      have hnn : ∀ x ∈ (councilConstituencies inp cc).map
          (fun k => k.population), 0 ≤ x := by
        intro x hx
        rcases List.mem_map.mp hx with ⟨k, hk, rfl⟩
        exact le_of_lt (hpop k hk)
      have h1 : k0.population ≤ councilPopSum inp cc :=
        List.single_le_sum hnn _ (List.mem_map_of_mem _ hk0)
      exact lt_of_lt_of_le (hpop k0 hk0) h1
    have hsum : ((councilConstituencies inp cc).map
        (fun k => k.population / councilPopSum inp cc)).sum
        = councilPopSum inp cc / councilPopSum inp cc := by
      simp only [div_eq_mul_inv]
      rw [List.sum_map_mul_right]
      rfl
    rw [hsum, div_self (ne_of_gt hps)]
  · simp only [if_neg hz]
    push_neg at hz
    rcases hz with ⟨j0, hj0, hj0ne⟩
    have hrs : 0 < councilRawSum inp cc := by
      have hnn : ∀ x ∈ (councilConstituencies inp cc).map (rawWeight inp),
          0 ≤ x := by
        intro x hx
        rcases List.mem_map.mp hx with ⟨k, hk, rfl⟩
        exact hraw k hk
      have h1 : rawWeight inp j0 ≤ councilRawSum inp cc :=
        List.single_le_sum hnn _ (List.mem_map_of_mem _ hj0)
      exact lt_of_lt_of_le (lt_of_le_of_ne (hraw j0 hj0) (Ne.symm hj0ne)) h1
    have hsum : ((councilConstituencies inp cc).map
        (fun k => rawWeight inp k / councilRawSum inp cc)).sum
        = councilRawSum inp cc / councilRawSum inp cc := by
      simp only [div_eq_mul_inv]
      rw [List.sum_map_mul_right]
      rfl
    rw [hsum, div_self (ne_of_gt hrs)]

/-- C9: for every input line, parseCSVLine returns a non-empty list of
fields obtained by splitting at exactly those commas preceded by an even
number of double quotes, with every double quote removed from the fields;
and when the line contains no double quote it is split at every comma,
giving one more field than the number of commas. -/
theorem parseCSVLine_spec (l : List Char) :
    parseCSVLine l = evenQuoteSplit l
    ∧ parseCSVLine l ≠ []
    ∧ ('"' ∉ l → (parseCSVLine l).length = l.count ',' + 1) := by
  refine ⟨?_, parseCSVLineGo_ne_nil l false [],
    fun h => parseCSVLineGo_length_of_no_quote l [] h⟩
  have := parseCSVLineGo_eq_evenSplitGo l 0 []
  simpa [parseCSVLine, evenQuoteSplit] using this

/-- Witness for C9 at the concrete line a,b: no double quote occurs, so the
field count is the comma count plus one. -/
theorem parseCSVLine_spec_witness :
    '"' ∉ ['a', ',', 'b']
    ∧ (parseCSVLine ['a', ',', 'b']).length = (['a', ',', 'b'].count ',') + 1 :=
  ⟨by decide, (parseCSVLine_spec ['a', ',', 'b']).2.2 (by decide)⟩

/-- C10: the constituency-comparison chart data has at most 10 entries; with
the Top 10 toggle it consists of highest-average-gain rows in descending
order of avgGain (the rest of the data lies at or below every charted row);
with the Lowest 10 toggle it consists of lowest-average-gain rows in
ascending order of avgGain (the rest lies at or above every charted row). -/
theorem chartData_spec (d : List ConstituencyRow) (showTop : Bool) :
    (chartData d showTop).length ≤ 10
    ∧ (showTop = true →
        (chartData d showTop).Pairwise gainDesc
        ∧ ∃ rest, d.Perm (chartData d showTop ++ rest)
          ∧ ∀ x ∈ chartData d showTop, ∀ y ∈ rest, y.avgGain ≤ x.avgGain)
    ∧ (showTop = false →
        (chartData d showTop).Pairwise (fun a b => a.avgGain ≤ b.avgGain)
        ∧ ∃ rest, d.Perm (rest ++ chartData d showTop)
          ∧ ∀ x ∈ chartData d showTop, ∀ y ∈ rest, x.avgGain ≤ y.avgGain) := by
  have hsort : (d.insertionSort gainDesc).Pairwise gainDesc :=
    List.sorted_insertionSort gainDesc d
  have hperm : (d.insertionSort gainDesc).Perm d :=
    List.perm_insertionSort gainDesc d
  cases showTop with
  | true =>
    set s := d.insertionSort gainDesc with hs
    have hchart : chartData d true = s.take 10 := by
      simp [chartData, ← hs]
    have hsplit : s.take 10 ++ s.drop 10 = s := List.take_append_drop 10 s
    have hcross := (List.pairwise_append.mp (hsplit ▸ hsort)).2.2
    refine ⟨?_, ?_, ?_⟩
    · rw [hchart, List.length_take]
      exact min_le_left _ _
    · intro _
      refine ⟨?_, s.drop 10, ?_, ?_⟩
      · rw [hchart]
        exact List.Pairwise.sublist (List.take_sublist 10 s) hsort
      · rw [hchart, hsplit]
        exact hperm.symm
      · intro x hx y hy
        rw [hchart] at hx
        exact hcross x hx y hy
    · intro h
      exact absurd h (by simp)
  | false =>
    set s := d.insertionSort gainDesc with hs
    set n := s.length - 10 with hn
    have hchart : chartData d false = (s.drop n).reverse := by
      simp [chartData, ← hs, ← hn]
    have hsplit : s.take n ++ s.drop n = s := List.take_append_drop n s
    have hcross := (List.pairwise_append.mp (hsplit ▸ hsort)).2.2
    refine ⟨?_, ?_, ?_⟩
    · rw [hchart, List.length_reverse, List.length_drop]
      omega
    · intro h
      exact absurd h (by simp)
    · intro _
      refine ⟨?_, s.take n, ?_, ?_⟩
      · rw [hchart, List.pairwise_reverse]
        exact List.Pairwise.sublist (List.drop_sublist n s) hsort
      · rw [hchart]
        have h1 : d.Perm (s.take n ++ s.drop n) := by
          rw [hsplit]
          exact hperm.symm
        exact h1.trans (List.Perm.append_left _ ((s.drop n).reverse_perm).symm)
      · intro x hx y hy
        rw [hchart] at hx
        exact hcross y hy x (List.mem_reverse.mp hx)

/-- Witness for C10 on three concrete rows with the Top 10 toggle:
the chart is descending and the remaining rows lie below it. -/
theorem chartData_spec_witness :
    (chartData [⟨"A", 3⟩, ⟨"B", 7⟩, ⟨"C", 5⟩] true).Pairwise gainDesc
    ∧ ∃ rest, ([⟨"A", 3⟩, ⟨"B", 7⟩, ⟨"C", 5⟩] : List ConstituencyRow).Perm
        (chartData [⟨"A", 3⟩, ⟨"B", 7⟩, ⟨"C", 5⟩] true ++ rest)
      ∧ ∀ x ∈ chartData [⟨"A", 3⟩, ⟨"B", 7⟩, ⟨"C", 5⟩] true, ∀ y ∈ rest,
          y.avgGain ≤ x.avgGain :=
  (chartData_spec [⟨"A", 3⟩, ⟨"B", 7⟩, ⟨"C", 5⟩] true).2.1 rfl

lemma shareSum_eq_one_exact (inp : EngineInput)
    (hkeys : ((inp.constituencies.map (fun k => k.council_code)).dedup).Perm
      (inp.txCounts.map Prod.fst))
    (htx : (inp.txCounts.map Prod.fst).Nodup)
    (hpop : ∀ k ∈ inp.constituencies, 0 < k.population)
    (hproxy : ∀ p ∈ inp.proxy, 0 ≤ p.2)
    (hnat : 0 ≤ inp.natAvg)
    (htot : 0 < txTotal inp) :
    shareSum inp = 1 := by
  set K := (inp.constituencies.map (fun k => k.council_code)).dedup with hKdef
  have hstep := sum_map_eq_sum_over_keys (fun k => k.council_code)
    (constituencyShare inp) K (hKdef ▸ List.nodup_dedup _) inp.constituencies
    (fun a ha => hKdef ▸ List.mem_dedup.mpr (List.mem_map_of_mem _ ha))
  have hinner : ∀ c ∈ K,
      ((inp.constituencies.filter (fun k => k.council_code = c)).map
        (constituencyShare inp)).sum = councilShare inp c := by
    intro c hc
    have hcm : c ∈ inp.constituencies.map (fun k => k.council_code) :=
      List.mem_dedup.mp (hKdef ▸ hc)
    rcases List.mem_map.mp hcm with ⟨a, ha, hac⟩
    have hne : councilConstituencies inp c ≠ [] := by
      intro hnil
      have hmem : a ∈ councilConstituencies inp c := by
        apply List.mem_filter.mpr
        exact ⟨ha, by simp [hac]⟩
      rw [hnil] at hmem
      exact List.not_mem_nil a hmem
    have h1 : ∀ k ∈ councilConstituencies inp c,
        constituencyShare inp k = councilShare inp c * intraWeight inp k := by
      intro k hk
      rw [constituencyShare, councilConstituencies_code inp c k hk]
    refine Eq.trans (congrArg List.sum (List.map_congr_left h1)) ?_
    rw [List.sum_map_mul_left]
    show councilShare inp c *
        ((councilConstituencies inp c).map (intraWeight inp)).sum
      = councilShare inp c
    rw [intraWeight_sum_eq_one inp c hne
        (fun k hk => hpop k (List.mem_of_mem_filter hk))
        (fun k hk => rawWeight_nonneg inp hproxy hnat k
          (le_of_lt (hpop k (List.mem_of_mem_filter hk)))),
      mul_one]
  rw [shareSum]
  refine Eq.trans hstep ?_
  refine Eq.trans (congrArg List.sum (List.map_congr_left hinner)) ?_
  have hdiv : (K.map (fun c => councilShare inp c)).sum
      = (K.map (fun c => lookupD inp.txCounts c)).sum / txTotal inp := by
    simp only [councilShare, div_eq_mul_inv]
    rw [List.sum_map_mul_right]
  rw [hdiv]
  have h3 : (K.map (fun c => lookupD inp.txCounts c)).sum = txTotal inp := by
    rw [(hkeys.map (fun c => lookupD inp.txCounts c)).sum_eq,
      sum_lookupD_keys inp.txCounts htx]
    rfl
  rw [h3]
  exact div_self (ne_of_gt htot)

/-- C1: with consistent council references (the distinct council codes of
the constituency list are exactly the keys of the transaction table) and
valid data (positive populations, non-negative proxies and counts, a
positive internal transaction total), the constituency shares produced by
composing council share and intra-council weight sum to 1 within the 1e-6
relative tolerance. -/
theorem shareSum_within_tolerance (inp : EngineInput)
    (hkeys : ((inp.constituencies.map (fun k => k.council_code)).dedup).Perm
      (inp.txCounts.map Prod.fst))
    (htx : (inp.txCounts.map Prod.fst).Nodup)
    (hpop : ∀ k ∈ inp.constituencies, 0 < k.population)
    (hproxy : ∀ p ∈ inp.proxy, 0 ≤ p.2)
    (hnat : 0 ≤ inp.natAvg)
    (htot : 0 < txTotal inp) :
    |shareSum inp - 1| ≤ 1 / 1000000 := by
  rw [shareSum_eq_one_exact inp hkeys htx hpop hproxy hnat htot]
  norm_num

/-- Witness for C1 on the concrete sample input. -/
theorem shareSum_within_tolerance_witness :
    ((sampleInput.constituencies.map (fun k => k.council_code)).dedup).Perm
      (sampleInput.txCounts.map Prod.fst)
    ∧ |shareSum sampleInput - 1| ≤ 1 / 1000000 :=
  ⟨by decide, shareSum_within_tolerance sampleInput (by decide) (by decide)
    (by norm_num [sampleInput]) (by norm_num [sampleInput])
    (by norm_num [sampleInput]) (by norm_num [txTotal, sampleInput])⟩

/-- C2: the wealth factor is local ratio divided by the national average
ratio, and a missing or zero local ratio yields factor 0 without error, so
the raw weight (population times wealth factor) is 0 no matter how large
the population is. -/
theorem wealthFactor_spec (inp : EngineInput) (k : Constituency) :
    wealthFactor inp k = lookupD inp.proxy k.code / inp.natAvg
    ∧ (lookupOpt inp.proxy k.code = none ∨ lookupOpt inp.proxy k.code = some 0 →
        wealthFactor inp k = 0 ∧ rawWeight inp k = 0) := by
  refine ⟨rfl, fun h => ?_⟩
  have hz : lookupD inp.proxy k.code = 0 := by
    rcases h with h | h
    · cases hf : inp.proxy.find? (fun p => p.1 = k.code) with
      | none => simp [lookupD, hf]
      | some p =>
        rw [lookupOpt, hf] at h
        simp at h
    · cases hf : inp.proxy.find? (fun p => p.1 = k.code) with
      | none =>
        rw [lookupOpt, hf] at h
        simp at h
      | some p =>
        rw [lookupOpt, hf] at h
        simp at h
        simp [lookupD, hf, h]
  have hwf : wealthFactor inp k = 0 := by
    rw [wealthFactor, hz, zero_div]
  exact ⟨hwf, by rw [rawWeight, hwf, mul_zero]⟩

/-- Witness for C2: a constituency with population 1,000,000 but no proxy
entry gets raw weight 0. -/
theorem wealthFactor_spec_witness :
    lookupOpt missingProxyInput.proxy "k9" = none
    ∧ rawWeight missingProxyInput ⟨"k9", "K9", "c9", 1000000⟩ = 0 :=
  ⟨rfl, ((wealthFactor_spec missingProxyInput ⟨"k9", "K9", "c9", 1000000⟩).2
    (Or.inl rfl)).2⟩

/-- C3: in a council in which every constituency has raw weight 0, the
intra-council weight falls back to population divided by council
population, and the intra-council weights still sum to 1 within the 1e-6
tolerance. -/
theorem fallback_weights_spec (inp : EngineInput) (cc : String)
    (hne : councilConstituencies inp cc ≠ [])
    (hz : ∀ k ∈ councilConstituencies inp cc, rawWeight inp k = 0)
    (hpop : ∀ k ∈ councilConstituencies inp cc, 0 < k.population) :
    (∀ k ∈ councilConstituencies inp cc,
      intraWeight inp k = k.population / councilPopSum inp cc)
    ∧ |((councilConstituencies inp cc).map (intraWeight inp)).sum - 1|
        ≤ 1 / 1000000 := by
  constructor
  · intro k hk
    rw [intraWeight, councilConstituencies_code inp cc k hk, if_pos hz]
  · rw [intraWeight_sum_eq_one inp cc hne hpop
      (fun k hk => le_of_eq (hz k hk).symm)]
    norm_num

/-- Witness for C3: a council with an absent proxy signal and populations
60 and 40 gets intra-council weights exactly 0.6 and 0.4, summing to 1. -/
theorem fallback_weights_spec_witness :
    intraWeight fallbackInput ⟨"a", "A", "c", 60⟩ = 0.6
    ∧ intraWeight fallbackInput ⟨"b", "B", "c", 40⟩ = 0.4
    ∧ |((councilConstituencies fallbackInput "c").map
        (intraWeight fallbackInput)).sum - 1| ≤ 1 / 1000000 := by
  refine ⟨?_, ?_, (fallback_weights_spec fallbackInput "c" (by decide)
    (by norm_num [councilConstituencies, fallbackInput, rawWeight,
      wealthFactor, lookupD, List.find?])
    (by norm_num [councilConstituencies, fallbackInput])).2⟩
  · norm_num [intraWeight, councilConstituencies, councilPopSum, fallbackInput,
      rawWeight, wealthFactor, lookupD, List.find?]
  · norm_num [intraWeight, councilConstituencies, councilPopSum, fallbackInput,
      rawWeight, wealthFactor, lookupD, List.find?]

lemma lookupD_eq_of_mem :
    ∀ (t : List (String × ℚ)), (t.map Prod.fst).Nodup →
      ∀ p ∈ t, lookupD t p.1 = p.2 := by
  intro t
  induction t with
  | nil => intro _ p hp; exact absurd hp (List.not_mem_nil p)
  | cons q t ih =>
    intro h p hp
    rw [List.map_cons] at h
    have hh := List.nodup_cons.mp h
    rcases List.mem_cons.mp hp with rfl | hp2
    · exact lookupD_head p t
    · have hne : ¬ p.1 = q.1 := fun he =>
        hh.1 (he ▸ List.mem_map_of_mem Prod.fst hp2)
      rw [lookupD_tail q t p.1 hne]
      exact ih hh.2 p hp2

/-- C4: every council share is that council's count divided by the internal
sum of the per-council counts; the headline national total is ignored
entirely (changing it never changes a share); and the shares over the table
sum to 1. -/
theorem councilShare_spec (inp : EngineInput)
    (htx : (inp.txCounts.map Prod.fst).Nodup)
    (htot : 0 < txTotal inp) :
    (∀ p ∈ inp.txCounts, councilShare inp p.1 = p.2 / txTotal inp)
    ∧ (∀ (h : ℚ) (cc : String),
        councilShare { inp with headlineTotal := h } cc = councilShare inp cc)
    ∧ (inp.txCounts.map (fun p => councilShare inp p.1)).sum = 1 := by
  have hform : ∀ p ∈ inp.txCounts, councilShare inp p.1 = p.2 / txTotal inp := by
    intro p hp
    rw [councilShare, lookupD_eq_of_mem inp.txCounts htx p hp]
  refine ⟨hform, fun h cc => rfl, ?_⟩
  have h1 : ∀ p ∈ inp.txCounts,
      councilShare inp p.1 = p.2 * (txTotal inp)⁻¹ := by
    intro p hp
    rw [hform p hp, div_eq_mul_inv]
  refine Eq.trans (congrArg List.sum (List.map_congr_left h1)) ?_
  rw [List.sum_map_mul_right, ← div_eq_mul_inv]
  exact div_self (ne_of_gt htot)

/-- Witness for C4: council counts 200 and 229 sum to 429 while the stored
headline figure is 391; the Edinburgh share uses denominator 429 and the
shares sum to 1. -/
theorem councilShare_spec_witness :
    txTotal mismatchInput = 429
    ∧ mismatchInput.headlineTotal = 391
    ∧ councilShare mismatchInput "Edinburgh" = 200 / 429
    ∧ (mismatchInput.txCounts.map
        (fun p => councilShare mismatchInput p.1)).sum = 1 := by
  refine ⟨by norm_num [txTotal, mismatchInput], rfl, ?_,
    (councilShare_spec mismatchInput (by decide)
      (by norm_num [txTotal, mismatchInput])).2.2⟩
  norm_num [councilShare, txTotal, mismatchInput, lookupD, List.find?]

/-- C5: a constituency whose council_code has no entry in the council
transaction table is excluded from allocation, its code is reported in the
excluded list of the allocation report, and no share is recorded for it. -/
theorem missing_council_excluded (inp : EngineInput) (k : Constituency)
    (hk : k ∈ inp.constituencies)
    (hmiss : lookupOpt inp.txCounts k.council_code = none)
    (hcodes : (inp.constituencies.map (fun j => j.code)).Nodup) :
    k.code ∈ (allocate inp).excluded
    ∧ ∀ p ∈ (allocate inp).shares, p.1 ≠ k.code := by
  constructor
  · rw [allocate]
    apply List.mem_map_of_mem
    apply List.mem_filter.mpr
    exact ⟨hk, by simp [hmiss]⟩
  · intro p hp
    rw [allocate] at hp
    rcases List.mem_map.mp hp with ⟨j, hj, rfl⟩
    have hjf := List.mem_filter.mp hj
    intro he
    have hjk : j = k := List.inj_on_of_nodup_map hcodes hjf.1 hk he
    rw [hjk] at hjf
    rw [hmiss] at hjf
    simp at hjf

/-- Witness for C5: constituency m1 references council nowhere, absent from
the transaction table, so m1 is reported excluded and receives no share. -/
theorem missing_council_excluded_witness :
    "m1" ∈ (allocate missingCouncilInput).excluded
    ∧ ∀ p ∈ (allocate missingCouncilInput).shares, p.1 ≠ "m1" :=
  missing_council_excluded missingCouncilInput ⟨"m1", "M1", "nowhere", 10⟩
    (by decide) (by decide) (by decide)

/-- C6 counterexample: with national stock 11,481 and the two quoted bands
(Band I 89 percent at £1,500, Band J 11 percent at £2,500) the national
average rate is exactly £1,610 per property, not approximately £1,607: the
two differ by 3, beyond any rounding to the pound. -/
theorem ukBenchmark_avgRate_counterexample :
    nationalAvgRate 11481 ukBands = 1610
    ∧ ¬ |nationalAvgRate 11481 ukBands - 1607| ≤ 1 := by
  constructor
  · norm_num [nationalAvgRate, scenarioRevenue, ukBands, bandRevenue]
  · norm_num [nationalAvgRate, scenarioRevenue, ukBands, bandRevenue]

/-- C6 amended: with national stock 11,481, Band I at 89 percent and
£1,500 and Band J at 11 percent and £2,500, the national total revenue is
£18,484,410 (approximately £18.5m within rounding) and the national
average rate (revenue divided by stock) is exactly £1,610 per property;
the £1,607 figure belongs to the finer 10,252/1,229 band split, not to the
89 percent / 11 percent shares stated here. -/
theorem ukBenchmark_scenario_spec :
    scenarioRevenue 11481 ukBands = 18484410
    ∧ |scenarioRevenue 11481 ukBands - 18500000| ≤ 50000
    ∧ nationalAvgRate 11481 ukBands = 1610 := by
  refine ⟨?_, ?_, ?_⟩ <;>
    norm_num [nationalAvgRate, scenarioRevenue, ukBands, bandRevenue]

lemma constituencyShare_nonneg (inp : EngineInput)
    (hpop : ∀ k ∈ inp.constituencies, 0 ≤ k.population)
    (hproxy : ∀ p ∈ inp.proxy, 0 ≤ p.2)
    (hnat : 0 ≤ inp.natAvg)
    (hcnt : ∀ p ∈ inp.txCounts, 0 ≤ p.2)
    (k : Constituency) (hk : k ∈ inp.constituencies) :
    0 ≤ constituencyShare inp k := by
  apply mul_nonneg
  · apply div_nonneg (lookupD_nonneg _ hcnt _)
    apply List.sum_nonneg
    intro x hx
    rcases List.mem_map.mp hx with ⟨p, hp, rfl⟩
    exact hcnt p hp
  · rw [intraWeight]
    split
    · apply div_nonneg (hpop k hk)
      apply List.sum_nonneg
      intro x hx
      rcases List.mem_map.mp hx with ⟨j, hj, rfl⟩
      exact hpop j (List.mem_of_mem_filter hj)
    · apply div_nonneg (rawWeight_nonneg inp hproxy hnat k (hpop k hk))
      apply List.sum_nonneg
      intro x hx
      rcases List.mem_map.mp hx with ⟨j, hj, rfl⟩
      exact rawWeight_nonneg inp hproxy hnat j (hpop j (List.mem_of_mem_filter hj))

lemma scenarioRevenue_mono (stock : ℚ) (hstock : 0 ≤ stock) :
    ∀ (bands : List Band) (rB rA : List ℚ),
      (∀ b ∈ bands, 0 ≤ b.stockShare) →
      List.Forall₂ (fun x y => x ≤ y) rB rA →
      scenarioRevenue stock (applyRates bands rB)
        ≤ scenarioRevenue stock (applyRates bands rA) := by
  intro bands
  induction bands with
  | nil =>
    intro rB rA _ _
    simp [scenarioRevenue, applyRates]
  | cons b bs ih =>
    intro rB rA hb hr
    cases hr with
    | nil => simp [scenarioRevenue, applyRates]
    | @cons x y tB tA hxy htail =>
      simp only [applyRates, List.zipWith_cons_cons, scenarioRevenue,
        List.map_cons, List.sum_cons, bandRevenue]
      apply add_le_add
      · exact mul_le_mul_of_nonneg_left hxy
          (mul_nonneg hstock (hb b (List.mem_cons_self b bs)))
      · exact ih tB tA (fun b2 hb2 => hb b2 (List.mem_cons_of_mem b hb2)) htail

/-- C7: for two rate scenarios over the same allocation in which every
per-band rate of scenario A is at least the corresponding per-band rate of
scenario B, every constituency's projected revenue under A is at least its
projected revenue under B. -/
theorem scenario_monotonicity (inp : EngineInput) (bands : List Band)
    (ratesB ratesA : List ℚ)
    (hpop : ∀ k ∈ inp.constituencies, 0 ≤ k.population)
    (hproxy : ∀ p ∈ inp.proxy, 0 ≤ p.2)
    (hnat : 0 ≤ inp.natAvg)
    (hcnt : ∀ p ∈ inp.txCounts, 0 ≤ p.2)
    (hstock : 0 ≤ inp.totalStock)
    (hshare : ∀ b ∈ bands, 0 ≤ b.stockShare)
    (hrates : List.Forall₂ (fun x y => x ≤ y) ratesB ratesA) :
    ∀ k ∈ inp.constituencies,
      constituencyRevenue inp bands ratesB k
        ≤ constituencyRevenue inp bands ratesA k := by
  intro k hk
  apply scenarioRevenue_mono
  · exact mul_nonneg hstock
      (constituencyShare_nonneg inp hpop hproxy hnat hcnt k hk)
  · exact hshare
  · exact hrates

/-- Witness for C7 on the sample input: the UK benchmark rates dominate the
£16m-target rates band by band, so k1's revenue is at least as large. -/
theorem scenario_monotonicity_witness :
    constituencyRevenue sampleInput ukBands [1200, 2000] ⟨"k1", "K1", "c1", 60⟩
      ≤ constituencyRevenue sampleInput ukBands [1500, 2500]
        ⟨"k1", "K1", "c1", 60⟩ :=
  scenario_monotonicity sampleInput ukBands [1200, 2000] [1500, 2500]
    (by norm_num [sampleInput]) (by norm_num [sampleInput])
    (by norm_num [sampleInput]) (by norm_num [sampleInput])
    (by norm_num [sampleInput]) (by norm_num [ukBands])
    (List.Forall₂.cons (by norm_num)
      (List.Forall₂.cons (by norm_num) List.Forall₂.nil))
    ⟨"k1", "K1", "c1", 60⟩ (by decide)

end Dashboard
